import Mathlib

/-!
Verification development for the Koi pond simulation core:
the fish body spine relaxation (`src/js/koi/fish/body.js`) and the
pond population controller (`src/js/koi/pond.js`), embedded shallowly
over the real numbers.  Stateful JS methods become pure functions from
the old state to the new state; the renderer sink becomes a list of
emitted commands; the external `Fish` behavior is abstracted by the
boolean result of its `update` call and an event trace.
-/

/-- A 2-D vector, the value content of the external `Vector2` class.
JS `copy`/`set` are value semantics here. -/
structure Vec2 where
  x : ℝ
  y : ℝ

noncomputable section

/-- Modelled from the spec: `Vector2.angle()` of the external vector class
(not under `src/`) is the polar angle atan2(y, x) of the vector, which is
the complex argument of `x + y i`. -/
def Vec2.angle (v : Vec2) : ℝ :=
  Complex.arg ⟨v.x, v.y⟩

/-- Euclidean length of a vector, written exactly as the source computes
distances: `Math.sqrt(dx * dx + dy * dy)`. -/
def vecLen (v : Vec2) : ℝ :=
  Real.sqrt (v.x * v.x + v.y * v.y)

/-- The pattern data the body constructor reads: its atlas slot and size. -/
structure Pattern where
  slot : Vec2
  size : Vec2

/-- A fish body (`body.js` constructor fields). -/
structure Body where
  pattern : Pattern
  spine : List Vec2
  spinePrevious : List Vec2
  spacing : ℝ
  inverseSpacing : ℝ
  radii : List ℝ
  springs : List ℝ
  u : List ℝ
  vCenter : ℝ
  vRadii : List ℝ
  phase : ℝ

def Body.RESOLUTION : ℝ := 0.14
def Body.SPRING_START : ℝ := 0.9
def Body.SPRING_END : ℝ := 0.3
def Body.SPRING_POWER : ℝ := 1.7
def Body.SWIM_AMPLITUDE : ℝ := 8.5
def Body.SWIM_SPEED : ℝ := 6.5
def Body.SPEED_THRESHOLD : ℝ := 0.02

/-- `radii[segment] = thickness * .5` (the cosine profile is commented out
in the source); the `power` parameter is kept but unused, as in the source. -/
def Body.makeRadii (n : ℕ) (thickness : ℝ) (_power : ℝ) : List ℝ :=
  (List.range n).map fun _ => thickness * 0.5

/-- `springs[spring] = start + (end - start) * ((spring / (N - 2)) ** power)`,
one entry per segment pair (`N - 1` entries). -/
def Body.makeSprings (n : ℕ) (start endStrength power : ℝ) : List ℝ :=
  (List.range (n - 1)).map fun spring =>
    start + (endStrength - start) * (((spring : ℝ) / ((n : ℝ) - 2)) ^ power)

/-- Texture U coordinates per segment; note the source subtracts
`atlasPixel.y` (not `.x`) at the right edge. -/
def Body.makeU (n : ℕ) (pattern : Pattern) (atlasPixel : Vec2) : List ℝ :=
  let uStart := pattern.slot.x + atlasPixel.x
  let uEnd := pattern.slot.x + pattern.size.x - atlasPixel.y
  (List.range n).map fun segment =>
    uStart + (uEnd - uStart) * (segment : ℝ) / ((n : ℝ) - 1)

/-- Texture V radii for the `N - 2` interior segments. -/
def Body.makeVRadii (n : ℕ) (pattern : Pattern) (atlasPixel : Vec2) : List ℝ :=
  (List.range (n - 2)).map fun _ => pattern.size.y * 0.5 - atlasPixel.y

/-- The `Body` constructor: `N = ceil(length / RESOLUTION) + 1` segments,
`spacing = length / (N - 1)`.  The JS constructor allocates the spine
arrays without contents; here they hold placeholder origins until
`initializeSpine` runs. -/
def Body.make (pattern : Pattern) (atlasPixel : Vec2) (length thickness : ℝ) : Body :=
  let n : ℕ := (⌈length / Body.RESOLUTION⌉).toNat + 1
  { pattern := pattern
    spine := List.replicate n ⟨0, 0⟩
    spinePrevious := List.replicate n ⟨0, 0⟩
    spacing := length / ((n : ℝ) - 1)
    inverseSpacing := 1 / (length / ((n : ℝ) - 1))
    radii := Body.makeRadii n thickness 0.6
    springs := Body.makeSprings n Body.SPRING_START Body.SPRING_END Body.SPRING_POWER
    u := Body.makeU n pattern atlasPixel
    vCenter := pattern.slot.y + pattern.size.y * 0.5
    vRadii := Body.makeVRadii n pattern atlasPixel
    phase := 0 }

/-- The list `[head, head - step, head - 2 step, ...]` of given length,
the loop body of `initializeSpine`. -/
def initSpineList (head step : Vec2) : ℕ → List Vec2
  | 0 => []
  | n + 1 => head :: initSpineList ⟨head.x - step.x, head.y - step.y⟩ step n

/-- `Body.prototype.initializeSpine`: each segment sits `spacing` behind
the previous one along `direction`; the previous-state snapshot is a copy. -/
def Body.initializeSpine (b : Body) (head direction : Vec2) : Body :=
  let l := initSpineList head ⟨direction.x * b.spacing, direction.y * b.spacing⟩ b.spine.length
  { b with spine := l, spinePrevious := l }

/-- `Body.prototype.storePreviousState`: copy the spine into the snapshot. -/
def Body.storePreviousState (b : Body) : Body :=
  { b with spinePrevious := b.spine }

/-- The current offset `d = segments[i] - segments[i-1]`. -/
def segOffset (prev cur : Vec2) : Vec2 :=
  ⟨cur.x - prev.x, cur.y - prev.y⟩

/-- The continuation-target offset
`dc = (segments[i-1] + dir * spacing) - segments[i]`. -/
def contOffset (spacing : ℝ) (prev dir cur : Vec2) : Vec2 :=
  ⟨prev.x + dir.x * spacing - cur.x, prev.y + dir.y * spacing - cur.y⟩

/-- The blended offset `d + dc * spring`. -/
def blendOffset (spacing spring : ℝ) (prev dir cur : Vec2) : Vec2 :=
  ⟨(segOffset prev cur).x + (contOffset spacing prev dir cur).x * spring,
   (segOffset prev cur).y + (contOffset spacing prev dir cur).y * spring⟩

/-- One iteration of the `update` loop over `segment`: given the already
updated `segments[i-1]` (`prev`), the incoming virtual direction and the
not-yet-updated `segments[i]` (`cur`), produce the new `segments[i]` and the
direction handed to the next iteration (`d / distance`). -/
def spineStep (spacing spring : ℝ) (prev dir cur : Vec2) : Vec2 × Vec2 :=
  let d := segOffset prev cur
  let distance := vecLen d
  let d2 := blendOffset spacing spring prev dir cur
  let distance2 := vecLen d2
  (⟨prev.x + spacing * d2.x / distance2, prev.y + spacing * d2.y / distance2⟩,
   ⟨d.x / distance, d.y / distance⟩)

/-- The `update` loop over segments `1 .. N-1`.  `prev` starts as the new
head; `rest` is the tail of the spine.  The springs list always has
exactly one entry per remaining segment in a constructed body; on a
mismatch the remaining segments are left untouched. -/
def updateSpineAux (spacing : ℝ) : List ℝ → Vec2 → Vec2 → List Vec2 → List Vec2
  | _, _, _, [] => []
  | [], _, _, c :: cs => c :: cs
  | s :: ss, prev, dir, c :: cs =>
    let r := spineStep spacing s prev dir c
    r.1 :: updateSpineAux spacing ss r.1 r.2 cs

/-- Per-step safety of the pass: at every iteration the current
inter-segment distance (the first divisor) and the blended offset length
(the second divisor) are nonzero. -/
def stepsSafe (spacing : ℝ) : List ℝ → Vec2 → Vec2 → List Vec2 → Prop
  | s :: ss, prev, dir, c :: cs =>
    vecLen (segOffset prev c) ≠ 0 ∧
    vecLen (blendOffset spacing s prev dir c) ≠ 0 ∧
    stepsSafe spacing ss (spineStep spacing s prev dir c).1 (spineStep spacing s prev dir c).2 cs
  | _, _, _, _ => True

/-- The wobble angle of `Body.prototype.update`:
`direction.angle() + PI + cos(phase) * (speed - SPEED_THRESHOLD) * SWIM_AMPLITUDE`. -/
def Body.updateAngle (b : Body) (direction : Vec2) (speed : ℝ) : ℝ :=
  Vec2.angle direction + Real.pi +
    Real.cos b.phase * (speed - Body.SPEED_THRESHOLD) * Body.SWIM_AMPLITUDE

/-- `Body.prototype.update`: snapshot the spine, pin the head, run the
single sequential relaxation pass, then advance and conditionally wrap the
phase (`if ((phase += SWIM_SPEED * speed) > PI * 2) phase -= PI * 2`). -/
def Body.update (b : Body) (head direction : Vec2) (speed : ℝ) : Body :=
  let b0 := b.storePreviousState
  let angle := b.updateAngle direction speed
  let dir0 : Vec2 := ⟨Real.cos angle, Real.sin angle⟩
  { b0 with
    spine :=
      match b0.spine with
      | [] => []
      | _ :: rest => head :: updateSpineAux b.spacing b.springs head dir0 rest
    phase :=
      let p := b.phase + Body.SWIM_SPEED * speed
      if p > Real.pi * 2 then p - Real.pi * 2 else p }

/-- A sequence of `update` calls (head, direction, speed), left to right. -/
def applyUpdates (b : Body) : List (Vec2 × Vec2 × ℝ) → Body :=
  List.foldl (fun acc c => acc.update c.1 c.2.1 c.2.2) b

/-- The commands the renderer sink receives from `Body.prototype.render`. -/
inductive RenderCmd where
  | cutStrip : ℝ → ℝ → ℝ → ℝ → RenderCmd
  | drawStrip : ℝ → ℝ → ℝ → ℝ → RenderCmd

/-- The interpolated centerline point
`previous + (current - previous) * time`, componentwise as in the source. -/
def interpPoint (p c : Vec2) (time : ℝ) : Vec2 :=
  ⟨p.x + (c.x - p.x) * time, p.y + (c.y - p.y) * time⟩

/-- The render loop over segments `1 .. N-1`: `n` iterations remain, the
current index is `idx`, and `(xEnd, yEnd)` is the previous interpolated
point.  Each iteration emits the left and right ribbon vertices.  (The
source's `dxStart`/`dyStart` variables are assigned but never read.) -/
def renderSegments (b : Body) (time : ℝ) : ℕ → ℕ → ℝ → ℝ → List RenderCmd
  | 0, _, _, _ => []
  | n + 1, idx, xEnd, yEnd =>
    let p := interpPoint (b.spinePrevious.getD idx ⟨0, 0⟩) (b.spine.getD idx ⟨0, 0⟩) time
    let dxE := p.x - xEnd
    let dyE := p.y - yEnd
    let r := b.radii.getD idx 0
    let vr := b.vRadii.getD (idx - 1) 0
    RenderCmd.drawStrip (p.x - r * dyE * b.inverseSpacing) (p.y + r * dxE * b.inverseSpacing)
        (b.u.getD idx 0) (b.vCenter - vr) ::
      RenderCmd.drawStrip (p.x + r * dyE * b.inverseSpacing) (p.y - r * dxE * b.inverseSpacing)
        (b.u.getD idx 0) (b.vCenter + vr) ::
      renderSegments b time n (idx + 1) p.x p.y

/-- `Body.prototype.render`: a strip cut at the interpolated head, then the
per-segment vertex pairs.  The body state is returned alongside the
commands; the source method only reads fields, so the state is unchanged. -/
def Body.render (b : Body) (time : ℝ) : Body × List RenderCmd :=
  let p0 := interpPoint (b.spinePrevious.getD 0 ⟨0, 0⟩) (b.spine.getD 0 ⟨0, 0⟩) time
  (b, RenderCmd.cutStrip p0.x p0.y (b.u.getD 0 0) b.vCenter ::
    renderSegments b time (b.spine.length - 1) 1 p0.x p0.y)

/-!
A NaN-tracking companion model for the relaxation pass, used to settle the
degenerate-geometry claim.  JavaScript numbers are IEEE doubles: `0 / 0` is
`NaN` and `NaN` is absorbing for the arithmetic the pass performs.  Values
are `Option ℝ` with `none` standing for a non-finite result (`NaN`, or the
infinity produced by a nonzero-over-zero division, which the pass never
distinguishes before it degenerates to `NaN`). -/

/-- IEEE-style addition on NaN-tracked reals. -/
def wadd : Option ℝ → Option ℝ → Option ℝ
  | some a, some b => some (a + b)
  | _, _ => none

/-- IEEE-style subtraction on NaN-tracked reals. -/
def wsub : Option ℝ → Option ℝ → Option ℝ
  | some a, some b => some (a - b)
  | _, _ => none

/-- IEEE-style multiplication on NaN-tracked reals. -/
def wmul : Option ℝ → Option ℝ → Option ℝ
  | some a, some b => some (a * b)
  | _, _ => none

/-- IEEE-style division on NaN-tracked reals: any division by zero leaves
the finite domain (`0 / 0` is `NaN`, otherwise an infinity). -/
def wdiv : Option ℝ → Option ℝ → Option ℝ
  | some a, some b => if b = 0 then none else some (a / b)
  | _, _ => none

/-- IEEE-style square root on NaN-tracked reals. -/
def wsqrt : Option ℝ → Option ℝ
  | some a => if a < 0 then none else some (Real.sqrt a)
  | none => none

/-- A 2-D vector of NaN-tracked coordinates. -/
structure WVec2 where
  x : Option ℝ
  y : Option ℝ

/-- Inject an exact vector into the NaN-tracked model. -/
def liftV (v : Vec2) : WVec2 := ⟨some v.x, some v.y⟩

/-- `segOffset` in the NaN-tracked model. -/
def wsegOffset (prev cur : WVec2) : WVec2 :=
  ⟨wsub cur.x prev.x, wsub cur.y prev.y⟩

/-- `contOffset` in the NaN-tracked model. -/
def wcontOffset (spacing : Option ℝ) (prev dir cur : WVec2) : WVec2 :=
  ⟨wsub (wadd prev.x (wmul dir.x spacing)) cur.x,
   wsub (wadd prev.y (wmul dir.y spacing)) cur.y⟩

/-- `blendOffset` in the NaN-tracked model. -/
def wblendOffset (spacing spring : Option ℝ) (prev dir cur : WVec2) : WVec2 :=
  ⟨wadd (wsegOffset prev cur).x (wmul (wcontOffset spacing prev dir cur).x spring),
   wadd (wsegOffset prev cur).y (wmul (wcontOffset spacing prev dir cur).y spring)⟩

/-- `vecLen` in the NaN-tracked model. -/
def wvecLen (v : WVec2) : Option ℝ :=
  wsqrt (wadd (wmul v.x v.x) (wmul v.y v.y))

/-- `spineStep` in the NaN-tracked model. -/
def wspineStep (spacing spring : Option ℝ) (prev dir cur : WVec2) : WVec2 × WVec2 :=
  let d := wsegOffset prev cur
  let distance := wvecLen d
  let d2 := wblendOffset spacing spring prev dir cur
  let distance2 := wvecLen d2
  (⟨wadd prev.x (wdiv (wmul spacing d2.x) distance2),
    wadd prev.y (wdiv (wmul spacing d2.y) distance2)⟩,
   ⟨wdiv d.x distance, wdiv d.y distance⟩)

/-- `updateSpineAux` in the NaN-tracked model. -/
def wupdateSpineAux (spacing : Option ℝ) :
    List (Option ℝ) → WVec2 → WVec2 → List WVec2 → List WVec2
  | _, _, _, [] => []
  | [], _, _, c :: cs => c :: cs
  | s :: ss, prev, dir, c :: cs =>
    let r := wspineStep spacing s prev dir c
    r.1 :: wupdateSpineAux spacing ss r.1 r.2 cs

/-- A small concrete body: three segments one unit apart on the x-axis,
unit spacing, spring strength one half. -/
def sampleBody : Body :=
  { pattern := ⟨⟨0, 0⟩, ⟨0, 0⟩⟩
    spine := [⟨0, 0⟩, ⟨-1, 0⟩, ⟨-2, 0⟩]
    spinePrevious := [⟨0, 0⟩, ⟨-1, 0⟩, ⟨-2, 0⟩]
    spacing := 1
    inverseSpacing := 1
    radii := [1, 1, 1]
    springs := [1 / 2, 1 / 2]
    u := [0, 0, 0]
    vCenter := 0
    vRadii := [0]
    phase := 0 }

/-- A concrete body whose second segment coincides with the head position
used in the degenerate update call. -/
def degenerateBody : Body :=
  { sampleBody with
    spine := [⟨9, 9⟩, ⟨0, 0⟩, ⟨1, 0⟩]
    spinePrevious := [⟨9, 9⟩, ⟨0, 0⟩, ⟨1, 0⟩]
    springs := [1, 1] }

end

/-- Modelled from the spec: the pond `Constraint` collaborator (not under
`src/`) exposes `getCapacity()`. -/
structure Constraint where
  getCapacity : ℤ

/-- A pond over an opaque fish type `F` (`pond.js` constructor fields). -/
structure Pond (F : Type) where
  constraint : Constraint
  capacity : ℤ
  fishes : List F

def Pond.SPAWN_OVERHEAD : ℤ := 2

/-- The `Pond` constructor. -/
def Pond.make (F : Type) (constraint : Constraint) : Pond F :=
  ⟨constraint, constraint.getCapacity, []⟩

/-- `Pond.prototype.canSpawn`. -/
def Pond.canSpawn {F : Type} (p : Pond F) : Bool :=
  decide ((p.fishes.length : ℤ) < p.capacity - Pond.SPAWN_OVERHEAD)

/-- `Pond.prototype.canDrop`. -/
def Pond.canDrop {F : Type} (p : Pond F) : Bool :=
  decide ((p.fishes.length : ℤ) < p.capacity)

/-- `Pond.prototype.addFish`: push onto the fishes array. -/
def Pond.addFish {F : Type} (p : Pond F) (fish : F) : Pond F :=
  { p with fishes := p.fishes ++ [fish] }

/-- The observable calls `Pond.prototype.update` makes on fish:
`f.interact(other, random)`, `f.update(constraint, random)`, `f.free(atlas)`. -/
inductive Event (F : Type) where
  | interact : F → F → Event F
  | update : F → Event F
  | free : F → Event F
deriving DecidableEq

def Event.isInteract {F : Type} : Event F → Bool
  | .interact _ _ => true
  | _ => false

def Event.isUpdate {F : Type} : Event F → Bool
  | .update _ => true
  | _ => false

def Event.isFree {F : Type} : Event F → Bool
  | .free _ => true
  | _ => false

/-- Modelled from the spec: the external `Fish` class (not under `src/`)
exposes `update(constraint, random) -> isDead`; within one tick that result
is a fixed boolean per fish, abstracted as `dies`.  `interact` and `free`
are recorded as trace events; the fish values themselves are opaque tokens.

The outer loop of `Pond.prototype.update`
(`for (let fish = this.fishes.length; fish-- > 0;)`) runs `fish` from the
last index down to `0`; the inner loop (`for (let other = fish; other-- > 0;)`)
runs `other` from `fish - 1` down to `0`.  A dead fish is freed and removed
by `splice(fish, 1)`, which is `eraseIdx`. -/
def pondLoop {F : Type} [Inhabited F] (dies : F → Bool) : ℕ → List F → List F × List (Event F)
  | 0, fishes => (fishes, [])
  | i + 1, fishes =>
    let f := fishes.getD i default
    let inner := (List.range i).reverse.map fun other => Event.interact f (fishes.getD other default)
    let died := dies f
    let fishes2 := if died then fishes.eraseIdx i else fishes
    let evs := inner ++ [Event.update f] ++ (if died then [Event.free f] else [])
    let rec_ := pondLoop dies i fishes2
    (rec_.1, evs ++ rec_.2)

/-- `Pond.prototype.update`, returning the pond after the tick and the trace
of calls made on fish during the tick. -/
def Pond.update {F : Type} [Inhabited F] (p : Pond F) (dies : F → Bool) :
    Pond F × List (Event F) :=
  let r := pondLoop dies p.fishes.length p.fishes
  ({ p with fishes := r.1 }, r.2)

/-- C3: `canSpawn()` is true iff the fish count is below
`capacity - SPAWN_OVERHEAD` and `canDrop()` is true iff it is below
`capacity`; with capacity 10, after adding 8 fish `canSpawn` is false while
`canDrop` is true, and after adding 10 fish `canDrop` is false. -/
theorem pond_capacity_gates :
    (∀ (F : Type) (p : Pond F), p.canSpawn = true ↔ (p.fishes.length : ℤ) < p.capacity - 2) ∧
    (∀ (F : Type) (p : Pond F), p.canDrop = true ↔ (p.fishes.length : ℤ) < p.capacity) ∧
    ((List.range 8).foldl Pond.addFish (Pond.make ℕ ⟨10⟩)).canSpawn = false ∧
    ((List.range 8).foldl Pond.addFish (Pond.make ℕ ⟨10⟩)).canDrop = true ∧
    ((List.range 10).foldl Pond.addFish (Pond.make ℕ ⟨10⟩)).canDrop = false := by
  refine ⟨fun F p => ?_, fun F p => ?_, by decide, by decide, by decide⟩
  · simp [Pond.canSpawn, Pond.SPAWN_OVERHEAD]
  · simp [Pond.canDrop]

lemma getD_eraseIdx_of_lt {α : Type} (l : List α) (i j : ℕ) (d : α) (h : j < i) :
    (l.eraseIdx i).getD j d = l.getD j d := by
  induction l generalizing i j with
  | nil => simp [List.eraseIdx]
  | cons a t ih =>
    cases i with
    | zero => omega
    | succ i =>
      cases j with
      | zero => simp
      | succ j => simpa using ih i j (by omega)

lemma pondLoop_filter_interact {F : Type} [Inhabited F] (dies : F → Bool) (l : List F) :
    ∀ (i : ℕ) (fishes : List F),
      (∀ j, j < i → fishes.getD j default = l.getD j default) →
      ((pondLoop dies i fishes).2.filter Event.isInteract) =
        (List.range i).reverse.flatMap fun k =>
          (List.range k).reverse.map fun j =>
            Event.interact (l.getD k default) (l.getD j default) := by
  intro i
  induction i with
  | zero => intro fishes _; simp [pondLoop]
  | succ i ih =>
    intro fishes h
    have hf : fishes.getD i default = l.getD i default := h i (Nat.lt_succ_self i)
    have hinv : ∀ j, j < i →
        (if dies (fishes.getD i default) then fishes.eraseIdx i else fishes).getD j default =
          l.getD j default := by
      intro j hj
      by_cases hd : dies (fishes.getD i default)
      · rw [if_pos hd, getD_eraseIdx_of_lt _ _ _ _ hj]
        exact h j (by omega)
      · rw [if_neg hd]
        exact h j (by omega)
    have hrec := ih _ hinv
    simp only [pondLoop]
    rw [List.filter_append, hrec]
    have hfilter :
        (((List.range i).reverse.map fun other =>
              Event.interact (fishes.getD i default) (fishes.getD other default)) ++
            [Event.update (fishes.getD i default)] ++
            (if dies (fishes.getD i default)
              then [Event.free (fishes.getD i default)] else [])).filter Event.isInteract =
          (List.range i).reverse.map fun j =>
            Event.interact (l.getD i default) (l.getD j default) := by
      rw [List.filter_append, List.filter_append]
      rw [List.filter_eq_self.mpr ?hall]
      case hall =>
        intro a ha
        obtain ⟨o, _, rfl⟩ := List.mem_map.mp ha
        rfl
      have h1 : ([Event.update (fishes.getD i default)] : List (Event F)).filter
          Event.isInteract = [] := rfl
      have h2 : ((if dies (fishes.getD i default)
          then [Event.free (fishes.getD i default)] else []) : List (Event F)).filter
          Event.isInteract = [] := by
        by_cases hd : dies (fishes.getD i default) <;> simp [hd, Event.isInteract]
      rw [h1, h2, List.append_nil, List.append_nil]
      refine List.map_congr_left ?_
      intro o ho
      rw [hf, h o (by rw [List.mem_reverse, List.mem_range] at ho; omega)]
    rw [hfilter, List.range_succ, List.reverse_append, List.reverse_singleton,
      List.singleton_append, List.flatMap_cons]

lemma pondLoop_filter_free {F : Type} [Inhabited F] (dies : F → Bool) (l : List F) :
    ∀ (i : ℕ) (fishes : List F),
      (∀ j, j < i → fishes.getD j default = l.getD j default) →
      ((pondLoop dies i fishes).2.filter Event.isFree) =
        ((List.range i).reverse.filter fun k => dies (l.getD k default)).map fun k =>
          Event.free (l.getD k default) := by
  intro i
  induction i with
  | zero => intro fishes _; simp [pondLoop]
  | succ i ih =>
    intro fishes h
    have hf : fishes.getD i default = l.getD i default := h i (Nat.lt_succ_self i)
    have hinv : ∀ j, j < i →
        (if dies (fishes.getD i default) then fishes.eraseIdx i else fishes).getD j default =
          l.getD j default := by
      intro j hj
      by_cases hd : dies (fishes.getD i default)
      · rw [if_pos hd, getD_eraseIdx_of_lt _ _ _ _ hj]
        exact h j (by omega)
      · rw [if_neg hd]
        exact h j (by omega)
    have hrec := ih _ hinv
    simp only [pondLoop]
    rw [List.filter_append, hrec]
    have hinner : ((List.range i).reverse.map fun other =>
          Event.interact (fishes.getD i default) (fishes.getD other default)).filter
            Event.isFree = [] := by
      rw [List.filter_eq_nil_iff]
      intro a ha
      obtain ⟨o, _, rfl⟩ := List.mem_map.mp ha
      simp [Event.isFree]
    rw [List.filter_append, List.filter_append, hinner]
    have h1 : ([Event.update (fishes.getD i default)] : List (Event F)).filter
        Event.isFree = [] := rfl
    rw [h1, List.range_succ, List.reverse_append, List.reverse_singleton,
      List.singleton_append, List.filter_cons, hf]
    by_cases hd : dies (l.getD i default)
    · rw [List.getD_eq_getElem?_getD] at hd
      simp [hd, Event.isFree]
    · rw [List.getD_eq_getElem?_getD] at hd
      simp [hd]

lemma pondLoop_filter_update {F : Type} [Inhabited F] (dies : F → Bool) (l : List F) :
    ∀ (i : ℕ) (fishes : List F),
      (∀ j, j < i → fishes.getD j default = l.getD j default) →
      ((pondLoop dies i fishes).2.filter Event.isUpdate) =
        (List.range i).reverse.map fun k => Event.update (l.getD k default) := by
  intro i
  induction i with
  | zero => intro fishes _; simp [pondLoop]
  | succ i ih =>
    intro fishes h
    have hf : fishes.getD i default = l.getD i default := h i (Nat.lt_succ_self i)
    have hinv : ∀ j, j < i →
        (if dies (fishes.getD i default) then fishes.eraseIdx i else fishes).getD j default =
          l.getD j default := by
      intro j hj
      by_cases hd : dies (fishes.getD i default)
      · rw [if_pos hd, getD_eraseIdx_of_lt _ _ _ _ hj]
        exact h j (by omega)
      · rw [if_neg hd]
        exact h j (by omega)
    have hrec := ih _ hinv
    simp only [pondLoop]
    rw [List.filter_append, hrec]
    have hinner : ((List.range i).reverse.map fun other =>
          Event.interact (fishes.getD i default) (fishes.getD other default)).filter
            Event.isUpdate = [] := by
      rw [List.filter_eq_nil_iff]
      intro a ha
      obtain ⟨o, _, rfl⟩ := List.mem_map.mp ha
      simp [Event.isUpdate]
    have hite : ((if dies (fishes.getD i default)
        then [Event.free (fishes.getD i default)] else []) : List (Event F)).filter
        Event.isUpdate = [] := by
      by_cases hd : dies (fishes.getD i default) <;> simp [hd, Event.isUpdate]
    rw [List.filter_append, List.filter_append, hinner, hite]
    have h1 : ([Event.update (fishes.getD i default)] : List (Event F)).filter
        Event.isUpdate = [Event.update (l.getD i default)] := by
      rw [hf]; rfl
    rw [h1, List.range_succ, List.reverse_append, List.reverse_singleton,
      List.singleton_append, List.map_cons]
    simp

lemma pondLoop_fst {F : Type} [Inhabited F] (dies : F → Bool) :
    ∀ (i : ℕ) (fishes : List F), i ≤ fishes.length →
      (pondLoop dies i fishes).1 =
        (fishes.take i).filter (fun f => !dies f) ++ fishes.drop i := by
  intro i
  induction i with
  | zero => intro fishes _; simp [pondLoop]
  | succ i ih =>
    intro fishes h
    have hi : i < fishes.length := by omega
    have hgetD : fishes.getD i default = fishes[i] := List.getD_eq_getElem _ _ hi
    have htake : fishes.take (i + 1) = fishes.take i ++ [fishes[i]] := by
      rw [List.take_succ, List.getElem?_eq_getElem hi]
      rfl
    simp only [pondLoop]
    by_cases hd : dies (fishes.getD i default)
    · rw [if_pos hd]
      have hlen : i ≤ (fishes.eraseIdx i).length := by
        rw [List.length_eraseIdx_of_lt hi]; omega
      rw [ih _ hlen, List.eraseIdx_eq_take_drop_succ]
      have htl : (fishes.take i ++ fishes.drop (i + 1)).take i = fishes.take i :=
        List.take_left' (by rw [List.length_take]; omega)
      have hdl : (fishes.take i ++ fishes.drop (i + 1)).drop i = fishes.drop (i + 1) :=
        List.drop_left' (by rw [List.length_take]; omega)
      rw [htl, hdl, htake, List.filter_append]
      have : ([fishes[i]] : List F).filter (fun f => !dies f) = [] := by
        simp [hgetD ▸ hd]
      rw [this, List.append_nil]
    · rw [if_neg hd]
      rw [ih _ (by omega), htake, List.filter_append]
      have : ([fishes[i]] : List F).filter (fun f => !dies f) = [fishes[i]] := by
        simp [hgetD ▸ hd]
      rw [this, List.drop_eq_getElem_cons hi]
      simp

lemma length_flatMap_ranges {F : Type} (g : ℕ → ℕ → Event F) (L : List ℕ) :
    (L.flatMap fun k => (List.range k).reverse.map fun j => g k j).length = L.sum := by
  induction L with
  | nil => simp
  | cons a t ih =>
    rw [List.flatMap_cons, List.length_append, ih, List.length_map, List.length_reverse,
      List.length_range, List.sum_cons]

lemma range_sum_mul_two : ∀ n : ℕ, (List.range n).sum * 2 = n * (n - 1) := by
  intro n
  induction n with
  | zero => simp
  | succ n ih =>
    rw [List.range_succ, List.sum_append, List.sum_cons, List.sum_nil, Nat.add_zero,
      Nat.add_mul, ih]
    have h : n + 1 - 1 = n := rfl
    rw [h]
    cases n with
    | zero => simp
    | succ m =>
      simp only [Nat.succ_sub_one]
      ring

/-- C2 (counterexample): in a pond of three fish, the first tick's
interaction calls are outer-descending with the INNER index DESCENDING:
the trace is `interact(f2, f1), interact(f2, f0), interact(f1, f0)`, not
the inner-ascending order `interact(f2, f0), interact(f2, f1), ...`
asserted by the claim. -/
theorem pond_interact_inner_ascending_false :
    (((((Pond.make ℕ ⟨10⟩).addFish 10).addFish 20).addFish 30).update
        (fun _ => false)).2.filter Event.isInteract =
      [Event.interact 30 20, Event.interact 30 10, Event.interact 20 10] ∧
    ¬((((((Pond.make ℕ ⟨10⟩).addFish 10).addFish 20).addFish 30).update
        (fun _ => false)).2.filter Event.isInteract =
      [Event.interact 30 10, Event.interact 30 20, Event.interact 20 10]) := by
  constructor <;> decide

/-- C2 (amended): each `Pond.update` tick performs exactly
`N * (N - 1) / 2` interaction calls over the `N` fish present at the start
of the tick, one per unordered pair, always as `f.interact(other)` with
`other` at a smaller starting index, with the outer index descending and the
inner index descending as well. -/
theorem pond_interact_trace {F : Type} [Inhabited F] (dies : F → Bool) (p : Pond F) :
    (p.update dies).2.filter Event.isInteract =
      ((List.range p.fishes.length).reverse.flatMap fun k =>
        (List.range k).reverse.map fun j =>
          Event.interact (p.fishes.getD k default) (p.fishes.getD j default)) ∧
    ((p.update dies).2.filter Event.isInteract).length =
      p.fishes.length * (p.fishes.length - 1) / 2 := by
  have h1 := pondLoop_filter_interact dies p.fishes p.fishes.length p.fishes
    (fun _ _ => rfl)
  have heq : (p.update dies).2.filter Event.isInteract =
      ((List.range p.fishes.length).reverse.flatMap fun k =>
        (List.range k).reverse.map fun j =>
          Event.interact (p.fishes.getD k default) (p.fishes.getD j default)) := by
    simpa [Pond.update] using h1
  refine ⟨heq, ?_⟩
  rw [heq, length_flatMap_ranges, List.sum_reverse]
  have h2 := range_sum_mul_two p.fishes.length
  omega

/-- C6: in one `Pond.update` tick, exactly the fish whose `update` call
returns true are removed (the survivors keep their order), each dead fish
is freed exactly once during the tick, each fish present at the start is
updated exactly once, and no live fish is freed. -/
theorem pond_death_removal {F : Type} [Inhabited F] (dies : F → Bool) (p : Pond F) :
    ((p.update dies).1).fishes = p.fishes.filter (fun f => !dies f) ∧
    (p.update dies).2.filter Event.isFree =
      ((List.range p.fishes.length).reverse.filter fun k =>
        dies (p.fishes.getD k default)).map
          (fun k => Event.free (p.fishes.getD k default)) ∧
    (p.update dies).2.filter Event.isUpdate =
      (List.range p.fishes.length).reverse.map
        (fun k => Event.update (p.fishes.getD k default)) := by
  refine ⟨?_, ?_, ?_⟩
  · have h := pondLoop_fst dies p.fishes.length p.fishes (le_refl _)
    simpa [Pond.update] using h
  · simpa [Pond.update] using
      pondLoop_filter_free dies p.fishes p.fishes.length p.fishes (fun _ _ => rfl)
  · simpa [Pond.update] using
      pondLoop_filter_update dies p.fishes p.fishes.length p.fishes (fun _ _ => rfl)

lemma update_phase (b : Body) (head direction : Vec2) (speed : ℝ) :
    (b.update head direction speed).phase =
      if b.phase + Body.SWIM_SPEED * speed > Real.pi * 2
        then b.phase + Body.SWIM_SPEED * speed - Real.pi * 2
        else b.phase + Body.SWIM_SPEED * speed := rfl

/-- C4 (counterexample): a single update at speed `2` (phase increment
`SWIM_SPEED * 2 = 13 > 4π`) leaves the phase at `13 - 2π`, which is not
in `[0, 2π)`: the conditional subtraction is not a modulo reduction. -/
theorem body_phase_wrap_false :
    ¬(0 ≤ (sampleBody.update ⟨0, 0⟩ ⟨1, 0⟩ 2).phase ∧
      (sampleBody.update ⟨0, 0⟩ ⟨1, 0⟩ 2).phase < 2 * Real.pi) := by
  rw [update_phase]
  have hpi := Real.pi_lt_d2
  have hzero : sampleBody.phase = 0 := rfl
  have hcond : sampleBody.phase + Body.SWIM_SPEED * 2 > Real.pi * 2 := by
    rw [hzero, Body.SWIM_SPEED]
    linarith
  rw [if_pos hcond]
  rintro ⟨h0, h1⟩
  rw [hzero, Body.SWIM_SPEED] at h1
  linarith

lemma phase_step_bounds (b : Body) (head direction : Vec2) (speed : ℝ)
    (h0 : 0 ≤ b.phase) (h1 : b.phase ≤ 2 * Real.pi)
    (hinc : Body.SWIM_SPEED * speed ≤ 2 * Real.pi) (hs : 0 ≤ speed) :
    0 ≤ (b.update head direction speed).phase ∧
      (b.update head direction speed).phase ≤ 2 * Real.pi := by
  rw [update_phase]
  have hsw : (0 : ℝ) ≤ Body.SWIM_SPEED * speed := by
    rw [Body.SWIM_SPEED]
    nlinarith
  by_cases hc : b.phase + Body.SWIM_SPEED * speed > Real.pi * 2
  · rw [if_pos hc]
    constructor <;> linarith
  · rw [if_neg hc]
    push_neg at hc
    constructor <;> linarith

/-- C4 (amended): each update adds `SWIM_SPEED * speed` to the phase and
subtracts `2π` once if the sum exceeds `2π`; this is not a modulo
reduction, and the invariant that holds is `phase ∈ [0, 2π]` (closed at
`2π`), preserved along any sequence of updates whose per-call increment
`SWIM_SPEED * speed` is at most `2π`. -/
theorem body_phase_bounded (b : Body) (calls : List (Vec2 × Vec2 × ℝ))
    (h0 : 0 ≤ b.phase) (h1 : b.phase ≤ 2 * Real.pi)
    (hc : ∀ c ∈ calls, 0 ≤ c.2.2 ∧ Body.SWIM_SPEED * c.2.2 ≤ 2 * Real.pi) :
    0 ≤ (applyUpdates b calls).phase ∧
      (applyUpdates b calls).phase ≤ 2 * Real.pi := by
  induction calls generalizing b with
  | nil => exact ⟨h0, h1⟩
  | cons c cs ih =>
    have hmem := hc c (List.mem_cons_self c cs)
    have hstep := phase_step_bounds b c.1 c.2.1 c.2.2 h0 h1 hmem.2 hmem.1
    have hcons : applyUpdates b (c :: cs) = applyUpdates (b.update c.1 c.2.1 c.2.2) cs := rfl
    rw [hcons]
    exact ih _ hstep.1 hstep.2 fun d hd => hc d (List.mem_cons_of_mem _ hd)

/-- C4 (witness): the amended theorem applied to the sample body and a
single update at speed `0.1`. -/
theorem body_phase_bounded_instance :
    (0 : ℝ) ≤ sampleBody.phase ∧ sampleBody.phase ≤ 2 * Real.pi ∧
    (∀ c ∈ [((⟨0, 0⟩ : Vec2), (⟨1, 0⟩ : Vec2), (0.1 : ℝ))],
      0 ≤ c.2.2 ∧ Body.SWIM_SPEED * c.2.2 ≤ 2 * Real.pi) ∧
    (0 ≤ (applyUpdates sampleBody [(⟨0, 0⟩, ⟨1, 0⟩, 0.1)]).phase ∧
      (applyUpdates sampleBody [(⟨0, 0⟩, ⟨1, 0⟩, 0.1)]).phase ≤ 2 * Real.pi) := by
  have hzero : sampleBody.phase = 0 := rfl
  have hpi := Real.pi_gt_three
  have h0 : (0 : ℝ) ≤ sampleBody.phase := by rw [hzero]
  have h1 : sampleBody.phase ≤ 2 * Real.pi := by rw [hzero]; linarith
  have hc : ∀ c ∈ [((⟨0, 0⟩ : Vec2), (⟨1, 0⟩ : Vec2), (0.1 : ℝ))],
      0 ≤ c.2.2 ∧ Body.SWIM_SPEED * c.2.2 ≤ 2 * Real.pi := by
    intro c hcm
    rw [List.mem_singleton] at hcm
    subst hcm
    refine ⟨by norm_num, ?_⟩
    rw [Body.SWIM_SPEED]
    norm_num
    linarith
  exact ⟨h0, h1, hc, body_phase_bounded sampleBody _ h0 h1 hc⟩

/-- C8: `render` mutates no body state (the returned state is the input
state, every field included), and re-rendering the returned state at the
same time value emits the identical command sequence. -/
theorem body_render_pure (b : Body) (time : ℝ) :
    (b.render time).1 = b ∧
    (((b.render time).1).render time).2 = (b.render time).2 :=
  ⟨rfl, rfl⟩

lemma initSpineList_length : ∀ (n : ℕ) (head step : Vec2),
    (initSpineList head step n).length = n := by
  intro n
  induction n with
  | zero => intro head step; rfl
  | succ n ih =>
    intro head step
    simp only [initSpineList, List.length_cons, ih]

lemma updateSpineAux_length (spacing : ℝ) :
    ∀ (rest : List Vec2) (springs : List ℝ) (prev dir : Vec2),
      (updateSpineAux spacing springs prev dir rest).length = rest.length := by
  intro rest
  induction rest with
  | nil => intro springs prev dir; cases springs <;> rfl
  | cons c cs ih =>
    intro springs prev dir
    cases springs with
    | nil => rfl
    | cons s ss => simp only [updateSpineAux, List.length_cons, ih]

lemma update_spine_length (b : Body) (head direction : Vec2) (speed : ℝ) :
    (b.update head direction speed).spine.length = b.spine.length := by
  simp only [Body.update, Body.storePreviousState]
  cases h : b.spine with
  | nil => simp [h]
  | cons s rest => simp [h, updateSpineAux_length]

lemma update_spinePrevious (b : Body) (head direction : Vec2) (speed : ℝ) :
    (b.update head direction speed).spinePrevious = b.spine := rfl

lemma update_spacing_eq (b : Body) (head direction : Vec2) (speed : ℝ) :
    (b.update head direction speed).spacing = b.spacing := rfl

lemma applyUpdates_invariants :
    ∀ (calls : List (Vec2 × Vec2 × ℝ)) (b : Body),
      b.spinePrevious.length = b.spine.length →
      (applyUpdates b calls).spine.length = b.spine.length ∧
      (applyUpdates b calls).spinePrevious.length = b.spine.length ∧
      (applyUpdates b calls).spacing = b.spacing := by
  intro calls
  induction calls with
  | nil => intro b h; exact ⟨rfl, h, rfl⟩
  | cons c cs ih =>
    intro b h
    have hstep1 : (b.update c.1 c.2.1 c.2.2).spine.length = b.spine.length :=
      update_spine_length b c.1 c.2.1 c.2.2
    have hstep2 : (b.update c.1 c.2.1 c.2.2).spinePrevious.length = b.spine.length := by
      rw [update_spinePrevious]
    obtain ⟨h1, h2, h3⟩ := ih (b.update c.1 c.2.1 c.2.2) (by rw [hstep2, hstep1])
    have hcons : applyUpdates b (c :: cs) = applyUpdates (b.update c.1 c.2.1 c.2.2) cs := rfl
    rw [hcons]
    exact ⟨by rw [h1, hstep1], by rw [h2, hstep1], by rw [h3, update_spacing_eq]⟩

/-- C9: construction creates `N = ceil(length / RESOLUTION) + 1` segments
with `spacing = length / (N - 1)` and an equal-length previous-state
snapshot, and neither the segment count nor the spacing changes under
`initializeSpine`, any sequence of updates, or rendering. -/
theorem body_construction_invariants (pattern : Pattern) (atlasPixel : Vec2)
    (length thickness : ℝ) (head direction : Vec2)
    (calls : List (Vec2 × Vec2 × ℝ)) (t : ℝ) :
    (Body.make pattern atlasPixel length thickness).spine.length =
      (⌈length / Body.RESOLUTION⌉).toNat + 1 ∧
    (Body.make pattern atlasPixel length thickness).spinePrevious.length =
      (Body.make pattern atlasPixel length thickness).spine.length ∧
    (Body.make pattern atlasPixel length thickness).spacing =
      length / (((Body.make pattern atlasPixel length thickness).spine.length : ℝ) - 1) ∧
    (applyUpdates ((Body.make pattern atlasPixel length thickness).initializeSpine
        head direction) calls).spine.length =
      (Body.make pattern atlasPixel length thickness).spine.length ∧
    (applyUpdates ((Body.make pattern atlasPixel length thickness).initializeSpine
        head direction) calls).spinePrevious.length =
      (Body.make pattern atlasPixel length thickness).spine.length ∧
    (applyUpdates ((Body.make pattern atlasPixel length thickness).initializeSpine
        head direction) calls).spacing =
      (Body.make pattern atlasPixel length thickness).spacing ∧
    ((applyUpdates ((Body.make pattern atlasPixel length thickness).initializeSpine
        head direction) calls).render t).1 =
      applyUpdates ((Body.make pattern atlasPixel length thickness).initializeSpine
        head direction) calls := by
  have hmk : (Body.make pattern atlasPixel length thickness).spine.length =
      (⌈length / Body.RESOLUTION⌉).toNat + 1 := by
    simp [Body.make]
  have hmkp : (Body.make pattern atlasPixel length thickness).spinePrevious.length =
      (Body.make pattern atlasPixel length thickness).spine.length := by
    simp [Body.make]
  have hinit1 : ((Body.make pattern atlasPixel length thickness).initializeSpine
      head direction).spine.length =
      (Body.make pattern atlasPixel length thickness).spine.length := by
    simp [Body.initializeSpine, initSpineList_length]
  have hinit2 : ((Body.make pattern atlasPixel length thickness).initializeSpine
      head direction).spinePrevious.length =
      ((Body.make pattern atlasPixel length thickness).initializeSpine
        head direction).spine.length := by
    simp [Body.initializeSpine, initSpineList_length]
  have hinit3 : ((Body.make pattern atlasPixel length thickness).initializeSpine
      head direction).spacing = (Body.make pattern atlasPixel length thickness).spacing := rfl
  obtain ⟨h1, h2, h3⟩ := applyUpdates_invariants calls
    ((Body.make pattern atlasPixel length thickness).initializeSpine head direction) hinit2
  refine ⟨hmk, hmkp, ?_, ?_, ?_, ?_, rfl⟩
  · have : (Body.make pattern atlasPixel length thickness).spacing =
        length / ((((⌈length / Body.RESOLUTION⌉).toNat + 1 : ℕ) : ℝ) - 1) := rfl
    rw [this, hmk]
  · rw [h1, hinit1]
  · rw [h2, hinit1]
  · rw [h3, hinit3]

lemma interpPoint_zero (p c : Vec2) : interpPoint p c 0 = p := by
  simp [interpPoint]

lemma interpPoint_one (p c : Vec2) : interpPoint p c 1 = c := by
  cases p with
  | mk px py =>
    cases c with
    | mk cx cy =>
      simp only [interpPoint, Vec2.mk.injEq]
      constructor <;> ring

lemma interpPoint_self (p : Vec2) (t : ℝ) : interpPoint p p t = p := by
  simp [interpPoint]

lemma renderSegments_congr (b b' : Body) (t t' : ℝ)
    (hradii : b'.radii = b.radii) (hu : b'.u = b.u) (hvr : b'.vRadii = b.vRadii)
    (hvc : b'.vCenter = b.vCenter) (hinv : b'.inverseSpacing = b.inverseSpacing)
    (hpt : ∀ i, interpPoint (b'.spinePrevious.getD i ⟨0, 0⟩) (b'.spine.getD i ⟨0, 0⟩) t' =
      interpPoint (b.spinePrevious.getD i ⟨0, 0⟩) (b.spine.getD i ⟨0, 0⟩) t) :
    ∀ (n idx : ℕ) (x y : ℝ),
      renderSegments b' t' n idx x y = renderSegments b t n idx x y := by
  intro n
  induction n with
  | zero => intro idx x y; rfl
  | succ n ih =>
    intro idx x y
    simp only [renderSegments, hradii, hu, hvr, hvc, hinv, hpt idx]
    rw [ih]

/-- C10: the interpolated centerline point used by `render` is
`previous + (current - previous) * time`; consequently rendering at
`time = 0` emits exactly what rendering the previous-tick snapshot alone
would emit (at any interpolation fraction), and rendering at `time = 1`
emits exactly what rendering the current spine alone would emit. -/
theorem body_render_interpolation (b : Body) (t : ℝ)
    (hlen : b.spinePrevious.length = b.spine.length) :
    (∀ p c : Vec2, interpPoint p c 0 = p ∧ interpPoint p c 1 = c) ∧
    (b.render 0).2 = (({ b with spine := b.spinePrevious } : Body).render t).2 ∧
    (b.render 1).2 = (({ b with spinePrevious := b.spine } : Body).render t).2 := by
  refine ⟨fun p c => ⟨interpPoint_zero p c, interpPoint_one p c⟩, ?_, ?_⟩
  · have hpt : ∀ i, interpPoint
        (({ b with spine := b.spinePrevious } : Body).spinePrevious.getD i ⟨0, 0⟩)
        (({ b with spine := b.spinePrevious } : Body).spine.getD i ⟨0, 0⟩) t =
        interpPoint (b.spinePrevious.getD i ⟨0, 0⟩) (b.spine.getD i ⟨0, 0⟩) 0 := by
      intro i
      simp only [interpPoint_self, interpPoint_zero]
    have hseg := renderSegments_congr b ({ b with spine := b.spinePrevious } : Body) 0 t
      rfl rfl rfl rfl rfl hpt
    simp only [Body.render, hpt 0, hseg, hlen]
  · have hpt : ∀ i, interpPoint
        (({ b with spinePrevious := b.spine } : Body).spinePrevious.getD i ⟨0, 0⟩)
        (({ b with spinePrevious := b.spine } : Body).spine.getD i ⟨0, 0⟩) t =
        interpPoint (b.spinePrevious.getD i ⟨0, 0⟩) (b.spine.getD i ⟨0, 0⟩) 1 := by
      intro i
      simp only [interpPoint_self, interpPoint_one]
    have hseg := renderSegments_congr b ({ b with spinePrevious := b.spine } : Body) 1 t
      rfl rfl rfl rfl rfl hpt
    simp only [Body.render, hpt 0, hseg]

/-- C10 (witness): the interpolation property applied to the sample body
at interpolation fraction one half. -/
theorem body_render_interpolation_instance :
    sampleBody.spinePrevious.length = sampleBody.spine.length ∧
    ((∀ p c : Vec2, interpPoint p c 0 = p ∧ interpPoint p c 1 = c) ∧
    (sampleBody.render 0).2 =
      (({ sampleBody with spine := sampleBody.spinePrevious } : Body).render (1 / 2)).2 ∧
    (sampleBody.render 1).2 =
      (({ sampleBody with spinePrevious := sampleBody.spine } : Body).render (1 / 2)).2) :=
  ⟨rfl, body_render_interpolation sampleBody (1 / 2) rfl⟩

lemma update_spine_eq (b : Body) (head direction : Vec2) (speed : ℝ)
    (s0 : Vec2) (rest : List Vec2) (hs : b.spine = s0 :: rest) :
    (b.update head direction speed).spine =
      head :: updateSpineAux b.spacing b.springs head
        ⟨Real.cos (b.updateAngle direction speed),
         Real.sin (b.updateAngle direction speed)⟩ rest := by
  simp only [Body.update, Body.storePreviousState]
  rw [hs]

/-- C5: the virtual forward direction fed to segment 1 by `Body.update` is
`(cos angle, sin angle)` with
`angle = direction.angle() + π + cos(phase) * (speed - SPEED_THRESHOLD) * SWIM_AMPLITUDE`,
`SWIM_AMPLITUDE = 8.5` and `SPEED_THRESHOLD = 0.02`; for every speed
strictly below the threshold the factor `speed - SPEED_THRESHOLD` is
negative (the oscillation inverts rather than vanishing). -/
theorem body_update_direction (b : Body) (head direction : Vec2) (speed : ℝ)
    (s0 : Vec2) (rest : List Vec2) (hs : b.spine = s0 :: rest) :
    (b.update head direction speed).spine =
      head :: updateSpineAux b.spacing b.springs head
        ⟨Real.cos (Vec2.angle direction + Real.pi +
            Real.cos b.phase * (speed - Body.SPEED_THRESHOLD) * Body.SWIM_AMPLITUDE),
         Real.sin (Vec2.angle direction + Real.pi +
            Real.cos b.phase * (speed - Body.SPEED_THRESHOLD) * Body.SWIM_AMPLITUDE)⟩ rest ∧
    Body.SWIM_AMPLITUDE = 8.5 ∧ Body.SPEED_THRESHOLD = 0.02 ∧
    (speed < Body.SPEED_THRESHOLD → speed - Body.SPEED_THRESHOLD < 0) := by
  refine ⟨update_spine_eq b head direction speed s0 rest hs, rfl, rfl, fun h => by linarith⟩

/-- C5 (witness): the direction formula applied to the sample body with
speed `0.01`, below the threshold `0.02`. -/
theorem body_update_direction_instance :
    sampleBody.spine = (⟨0, 0⟩ : Vec2) :: [⟨-1, 0⟩, ⟨-2, 0⟩] ∧
    ((sampleBody.update ⟨0, 0⟩ ⟨1, 0⟩ 0.01).spine =
      (⟨0, 0⟩ : Vec2) :: updateSpineAux sampleBody.spacing sampleBody.springs ⟨0, 0⟩
        ⟨Real.cos (Vec2.angle ⟨1, 0⟩ + Real.pi +
            Real.cos sampleBody.phase * (0.01 - Body.SPEED_THRESHOLD) * Body.SWIM_AMPLITUDE),
         Real.sin (Vec2.angle ⟨1, 0⟩ + Real.pi +
            Real.cos sampleBody.phase * (0.01 - Body.SPEED_THRESHOLD) * Body.SWIM_AMPLITUDE)⟩
        [⟨-1, 0⟩, ⟨-2, 0⟩] ∧
    Body.SWIM_AMPLITUDE = 8.5 ∧ Body.SPEED_THRESHOLD = 0.02 ∧
    ((0.01 : ℝ) < Body.SPEED_THRESHOLD → (0.01 : ℝ) - Body.SPEED_THRESHOLD < 0)) :=
  ⟨rfl, body_update_direction sampleBody ⟨0, 0⟩ ⟨1, 0⟩ 0.01 ⟨0, 0⟩ [⟨-1, 0⟩, ⟨-2, 0⟩] rfl⟩

lemma spineStep_dist (spacing spring : ℝ) (prev dir cur : Vec2) (hsp : 0 ≤ spacing)
    (hb : vecLen (blendOffset spacing spring prev dir cur) ≠ 0) :
    vecLen (segOffset prev (spineStep spacing spring prev dir cur).1) = spacing := by
  have hK : 0 ≤ (blendOffset spacing spring prev dir cur).x *
        (blendOffset spacing spring prev dir cur).x +
      (blendOffset spacing spring prev dir cur).y *
        (blendOffset spacing spring prev dir cur).y :=
    add_nonneg (mul_self_nonneg _) (mul_self_nonneg _)
  have hLL : vecLen (blendOffset spacing spring prev dir cur) *
        vecLen (blendOffset spacing spring prev dir cur) =
      (blendOffset spacing spring prev dir cur).x *
        (blendOffset spacing spring prev dir cur).x +
      (blendOffset spacing spring prev dir cur).y *
        (blendOffset spacing spring prev dir cur).y := by
    rw [vecLen]
    exact Real.mul_self_sqrt hK
  have hx : (segOffset prev (spineStep spacing spring prev dir cur).1).x =
      spacing * (blendOffset spacing spring prev dir cur).x /
        vecLen (blendOffset spacing spring prev dir cur) := by
    simp only [segOffset, spineStep]
    ring
  have hy : (segOffset prev (spineStep spacing spring prev dir cur).1).y =
      spacing * (blendOffset spacing spring prev dir cur).y /
        vecLen (blendOffset spacing spring prev dir cur) := by
    simp only [segOffset, spineStep]
    ring
  rw [vecLen, hx, hy]
  have harg : spacing * (blendOffset spacing spring prev dir cur).x /
        vecLen (blendOffset spacing spring prev dir cur) *
        (spacing * (blendOffset spacing spring prev dir cur).x /
          vecLen (blendOffset spacing spring prev dir cur)) +
      spacing * (blendOffset spacing spring prev dir cur).y /
        vecLen (blendOffset spacing spring prev dir cur) *
        (spacing * (blendOffset spacing spring prev dir cur).y /
          vecLen (blendOffset spacing spring prev dir cur)) =
      spacing * spacing := by
    calc spacing * (blendOffset spacing spring prev dir cur).x /
          vecLen (blendOffset spacing spring prev dir cur) *
          (spacing * (blendOffset spacing spring prev dir cur).x /
            vecLen (blendOffset spacing spring prev dir cur)) +
        spacing * (blendOffset spacing spring prev dir cur).y /
          vecLen (blendOffset spacing spring prev dir cur) *
          (spacing * (blendOffset spacing spring prev dir cur).y /
            vecLen (blendOffset spacing spring prev dir cur)) =
        spacing * spacing *
          ((blendOffset spacing spring prev dir cur).x *
              (blendOffset spacing spring prev dir cur).x +
            (blendOffset spacing spring prev dir cur).y *
              (blendOffset spacing spring prev dir cur).y) /
          (vecLen (blendOffset spacing spring prev dir cur) *
            vecLen (blendOffset spacing spring prev dir cur)) := by ring
      _ = spacing * spacing *
          (vecLen (blendOffset spacing spring prev dir cur) *
            vecLen (blendOffset spacing spring prev dir cur)) /
          (vecLen (blendOffset spacing spring prev dir cur) *
            vecLen (blendOffset spacing spring prev dir cur)) := by rw [hLL]
      _ = spacing * spacing := by
        rw [mul_div_assoc, div_self (mul_ne_zero hb hb), mul_one]
  rw [harg, Real.sqrt_mul_self hsp]

lemma updateSpineAux_chain (spacing : ℝ) (hsp : 0 ≤ spacing) :
    ∀ (rest : List Vec2) (springs : List ℝ) (prev dir : Vec2),
      rest.length ≤ springs.length →
      stepsSafe spacing springs prev dir rest →
      List.Chain' (fun p q => vecLen (segOffset p q) = spacing)
        (prev :: updateSpineAux spacing springs prev dir rest) := by
  intro rest
  induction rest with
  | nil =>
    intro springs prev dir _ _
    cases springs <;> exact List.chain'_singleton prev
  | cons c cs ih =>
    intro springs prev dir hlen hsafe
    cases springs with
    | nil => simp at hlen
    | cons s ss =>
      obtain ⟨h1, h2, h3⟩ := hsafe
      simp only [updateSpineAux]
      rw [List.chain'_cons]
      exact ⟨spineStep_dist spacing s prev dir c hsp h2,
        ih ss (spineStep spacing s prev dir c).1 (spineStep spacing s prev dir c).2
          (by simpa using hlen) h3⟩

/-- C1: on a body whose pass is free of zero-length divisions (consecutive
segments distinct and blended offsets nonzero at every step) and whose
spacing is nonnegative, every pair of consecutive spine segments is exactly
`spacing` apart after `Body.update`, regardless of how far the head moved. -/
theorem body_update_spacing (b : Body) (head direction : Vec2) (speed : ℝ)
    (s0 : Vec2) (rest : List Vec2) (hs : b.spine = s0 :: rest)
    (hsp : 0 ≤ b.spacing) (hlen : rest.length ≤ b.springs.length)
    (hsafe : stepsSafe b.spacing b.springs head
      ⟨Real.cos (b.updateAngle direction speed),
       Real.sin (b.updateAngle direction speed)⟩ rest) :
    List.Chain' (fun p q => vecLen (segOffset p q) = b.spacing)
      ((b.update head direction speed).spine) := by
  rw [update_spine_eq b head direction speed s0 rest hs]
  exact updateSpineAux_chain b.spacing hsp rest b.springs head _ hlen hsafe

lemma angle_unitX : Vec2.angle ⟨1, 0⟩ = 0 := by
  have h : (⟨1, 0⟩ : ℂ) = 1 := by
    apply Complex.ext <;> simp
  rw [Vec2.angle]
  rw [show (⟨(1 : ℝ), (0 : ℝ)⟩ : ℂ) = 1 from h, Complex.arg_one]

lemma sample_angle : sampleBody.updateAngle ⟨1, 0⟩ 0.02 = Real.pi := by
  rw [Body.updateAngle, angle_unitX]
  have hph : sampleBody.phase = 0 := rfl
  rw [hph, Real.cos_zero, Body.SPEED_THRESHOLD]
  norm_num

lemma sample_dir0 :
    (⟨Real.cos (sampleBody.updateAngle ⟨1, 0⟩ 0.02),
      Real.sin (sampleBody.updateAngle ⟨1, 0⟩ 0.02)⟩ : Vec2) = ⟨-1, 0⟩ := by
  rw [sample_angle, Real.cos_pi, Real.sin_pi]

lemma sample_stepsSafe :
    stepsSafe 1 [1 / 2, 1 / 2] ⟨0, 0⟩ ⟨-1, 0⟩ [⟨-1, 0⟩, ⟨-2, 0⟩] := by
  have hstep1 : spineStep 1 (1 / 2) ⟨0, 0⟩ ⟨-1, 0⟩ ⟨-1, 0⟩ = (⟨-1, 0⟩, ⟨-1, 0⟩) := by
    simp only [spineStep, segOffset, contOffset, blendOffset, vecLen]
    norm_num [Real.sqrt_one]
  simp only [stepsSafe, hstep1]
  refine ⟨?_, ?_, ?_, ?_, trivial⟩
  · simp only [segOffset, vecLen]
    norm_num [Real.sqrt_one]
  · simp only [blendOffset, segOffset, contOffset, vecLen]
    norm_num [Real.sqrt_one]
  · simp only [segOffset, vecLen]
    norm_num [Real.sqrt_one]
  · simp only [blendOffset, segOffset, contOffset, vecLen]
    norm_num [Real.sqrt_one]

/-- C1 (witness): the spacing-preservation theorem applied to the sample
body, head pinned at the origin, direction `(1, 0)`, speed `0.02`. -/
theorem body_update_spacing_instance :
    sampleBody.spine = (⟨0, 0⟩ : Vec2) :: [⟨-1, 0⟩, ⟨-2, 0⟩] ∧
    (0 : ℝ) ≤ sampleBody.spacing ∧
    ([(⟨-1, 0⟩ : Vec2), ⟨-2, 0⟩] : List Vec2).length ≤ sampleBody.springs.length ∧
    stepsSafe sampleBody.spacing sampleBody.springs ⟨0, 0⟩
      ⟨Real.cos (sampleBody.updateAngle ⟨1, 0⟩ 0.02),
       Real.sin (sampleBody.updateAngle ⟨1, 0⟩ 0.02)⟩ [⟨-1, 0⟩, ⟨-2, 0⟩] ∧
    List.Chain' (fun p q => vecLen (segOffset p q) = sampleBody.spacing)
      ((sampleBody.update ⟨0, 0⟩ ⟨1, 0⟩ 0.02).spine) := by
  have hsp : (0 : ℝ) ≤ sampleBody.spacing := by
    rw [show sampleBody.spacing = 1 from rfl]
    norm_num
  have hsafe : stepsSafe sampleBody.spacing sampleBody.springs ⟨0, 0⟩
      ⟨Real.cos (sampleBody.updateAngle ⟨1, 0⟩ 0.02),
       Real.sin (sampleBody.updateAngle ⟨1, 0⟩ 0.02)⟩ [⟨-1, 0⟩, ⟨-2, 0⟩] := by
    rw [sample_dir0]
    exact sample_stepsSafe
  exact ⟨rfl, hsp, Nat.le_refl 2, hsafe,
    body_update_spacing sampleBody ⟨0, 0⟩ ⟨1, 0⟩ 0.02 ⟨0, 0⟩ [⟨-1, 0⟩, ⟨-2, 0⟩]
      rfl hsp (Nat.le_refl 2) hsafe⟩

lemma wvecLen_lift (v : Vec2) : wvecLen (liftV v) = some (vecLen v) := by
  simp only [wvecLen, liftV, wadd, wmul, wsqrt]
  rw [if_neg (not_lt.mpr (add_nonneg (mul_self_nonneg v.x) (mul_self_nonneg v.y)))]
  rfl

lemma wsegOffset_lift (prev cur : Vec2) :
    wsegOffset (liftV prev) (liftV cur) = liftV (segOffset prev cur) := rfl

lemma wblendOffset_lift (spacing spring : ℝ) (prev dir cur : Vec2) :
    wblendOffset (some spacing) (some spring) (liftV prev) (liftV dir) (liftV cur) =
      liftV (blendOffset spacing spring prev dir cur) := rfl

lemma wspineStep_lift (spacing spring : ℝ) (prev dir cur : Vec2)
    (h1 : vecLen (segOffset prev cur) ≠ 0)
    (h2 : vecLen (blendOffset spacing spring prev dir cur) ≠ 0) :
    wspineStep (some spacing) (some spring) (liftV prev) (liftV dir) (liftV cur) =
      (liftV (spineStep spacing spring prev dir cur).1,
       liftV (spineStep spacing spring prev dir cur).2) := by
  simp only [wspineStep, wsegOffset_lift, wblendOffset_lift, wvecLen_lift]
  simp only [liftV, wadd, wmul, wdiv, spineStep]
  rw [if_neg h2, if_neg h2, if_neg h1, if_neg h1]

lemma wupdateSpineAux_lift (spacing : ℝ) :
    ∀ (rest : List Vec2) (springs : List ℝ) (prev dir : Vec2),
      stepsSafe spacing springs prev dir rest →
      wupdateSpineAux (some spacing) (springs.map some) (liftV prev) (liftV dir)
        (rest.map liftV) = (updateSpineAux spacing springs prev dir rest).map liftV := by
  intro rest
  induction rest with
  | nil =>
    intro springs prev dir _
    cases springs <;> rfl
  | cons c cs ih =>
    intro springs prev dir hsafe
    cases springs with
    | nil => rfl
    | cons s ss =>
      obtain ⟨h1, h2, h3⟩ := hsafe
      simp only [List.map_cons, wupdateSpineAux, updateSpineAux,
        wspineStep_lift spacing s prev dir c h1 h2]
      exact congrArg _ (ih ss _ _ h3)

lemma degenerate_dir0 :
    (⟨Real.cos (degenerateBody.updateAngle ⟨1, 0⟩ 0.02),
      Real.sin (degenerateBody.updateAngle ⟨1, 0⟩ 0.02)⟩ : Vec2) = ⟨-1, 0⟩ := by
  rw [show degenerateBody.updateAngle ⟨1, 0⟩ 0.02 =
    sampleBody.updateAngle ⟨1, 0⟩ 0.02 from rfl]
  exact sample_dir0

lemma wstep_degenerate :
    wspineStep (some 1) (some 1) (liftV ⟨0, 0⟩) (liftV ⟨-1, 0⟩) (liftV ⟨0, 0⟩) =
      (liftV ⟨-1, 0⟩, ⟨none, none⟩) := by
  simp only [wspineStep, wsegOffset, wcontOffset, wblendOffset, wvecLen, wadd, wsub,
    wmul, wdiv, wsqrt, liftV]
  norm_num [Real.sqrt_one, Real.sqrt_zero]

/-- C7: `Body.update` divides by inter-segment distances with no guard.
First two conjuncts: at a concrete degenerate input (the new head
coincides with the old second segment) the first division's divisor is
exactly zero, and in the NaN-tracking model of the very same pass the
`0 / 0` poisons the running direction and the NaN reaches the spine: the
final segment comes out as `(NaN, NaN)` while the intermediate one is
still finite.  Last conjunct: whenever every step's distance and blended
offset are nonzero, the NaN-tracking pass coincides with the exact real
pass, so no non-finite value enters the spine. -/
theorem body_division_guard :
    vecLen (segOffset (⟨0, 0⟩ : Vec2) (degenerateBody.spine.getD 1 ⟨0, 0⟩)) = 0 ∧
    wupdateSpineAux (some degenerateBody.spacing) (degenerateBody.springs.map some)
        (liftV ⟨0, 0⟩)
        (liftV ⟨Real.cos (degenerateBody.updateAngle ⟨1, 0⟩ 0.02),
                Real.sin (degenerateBody.updateAngle ⟨1, 0⟩ 0.02)⟩)
        ((degenerateBody.spine.drop 1).map liftV) =
      [liftV ⟨-1, 0⟩, ⟨none, none⟩] ∧
    (∀ (spacing : ℝ) (springs : List ℝ) (prev dir : Vec2) (rest : List Vec2),
      stepsSafe spacing springs prev dir rest →
      wupdateSpineAux (some spacing) (springs.map some) (liftV prev) (liftV dir)
        (rest.map liftV) = (updateSpineAux spacing springs prev dir rest).map liftV) := by
  refine ⟨?_, ?_, fun spacing springs prev dir rest h =>
    wupdateSpineAux_lift spacing rest springs prev dir h⟩
  · show vecLen (segOffset (⟨0, 0⟩ : Vec2) ⟨0, 0⟩) = 0
    simp only [segOffset, vecLen]
    norm_num [Real.sqrt_zero]
  · rw [degenerate_dir0]
    show wupdateSpineAux (some 1) [some 1, some 1] (liftV ⟨0, 0⟩) (liftV ⟨-1, 0⟩)
      [liftV ⟨0, 0⟩, liftV ⟨1, 0⟩] = [liftV ⟨-1, 0⟩, ⟨none, none⟩]
    simp only [wupdateSpineAux, wstep_degenerate]
    rfl

/-- C7 (witness): the no-NaN refinement applied at the safe sample inputs
whose pass was shown division-free. -/
theorem body_division_guard_instance :
    stepsSafe 1 [1 / 2, 1 / 2] ⟨0, 0⟩ ⟨-1, 0⟩ [⟨-1, 0⟩, ⟨-2, 0⟩] ∧
    wupdateSpineAux (some 1) ([(1 : ℝ) / 2, 1 / 2].map some) (liftV ⟨0, 0⟩)
        (liftV ⟨-1, 0⟩) ([(⟨-1, 0⟩ : Vec2), ⟨-2, 0⟩].map liftV) =
      (updateSpineAux 1 [1 / 2, 1 / 2] ⟨0, 0⟩ ⟨-1, 0⟩ [⟨-1, 0⟩, ⟨-2, 0⟩]).map liftV :=
  ⟨sample_stepsSafe,
    body_division_guard.2.2 1 [1 / 2, 1 / 2] ⟨0, 0⟩ ⟨-1, 0⟩ [⟨-1, 0⟩, ⟨-2, 0⟩]
      sample_stepsSafe⟩
